import Mathlib

/-!
Verification of the RSS-to-Telegram bot core (`bot.py`).

Shallow embedding of the ingestion–deduplication–dispatch pipeline of
`bot.py`.  Pure Python functions become Lean functions over `List Char` /
`String`; the stateful main loop becomes a recursive function threading the
loop's local variables; the Telegram transport is modelled by an oracle
`Nat → Bool` giving the outcome of the i-th send attempt; machine-level
hashing (`hashlib.sha256`) is embedded as a full executable SHA-256 over the
UTF-8 bytes of the input string.
-/

namespace Bot

/-! ## Whitespace and case primitives

`re`'s `\s` and Python's `str.strip`/`str.lower` are modelled over the ASCII
whitespace class and ASCII case mapping (the inputs the claims exercise are
in this fragment). -/

/-- The characters matched by `\s` (ASCII fragment): space, tab, newline,
carriage return, vertical tab, form feed. -/
def isPySpace (c : Char) : Bool :=
  c = ' ' || c = '\t' || c = '\n' || c = '\r' || c = '\x0b' || c = '\x0c'

/-- ASCII lowering, modelling `str.lower` on the ASCII fragment. -/
def toLowerChar (c : Char) : Char :=
  if 'A' ≤ c && c ≤ 'Z' then Char.ofNat (c.toNat + 32) else c

/-- Python `s.strip()` on the left: drop leading whitespace. -/
def lstripL (l : List Char) : List Char := l.dropWhile isPySpace

/-- Python `s.rstrip()`: drop trailing whitespace. -/
def rstripL (l : List Char) : List Char := (l.reverse.dropWhile isPySpace).reverse

/-- Python `s.strip()`: drop whitespace at both ends. -/
def stripL (l : List Char) : List Char := rstripL (lstripL l)

/-- Model of `re.sub(r"\s+", " ", ·)`: collapse every maximal run of whitespace
characters to a single space. -/
def collapseWs : List Char → List Char
  | [] => []
  | [c] => if isPySpace c then [' '] else [c]
  | c :: c' :: cs =>
    if isPySpace c && isPySpace c' then collapseWs (c' :: cs)
    else (if isPySpace c then ' ' else c) :: collapseWs (c' :: cs)

/-- Embeds `norm_space` (bot.py:71): strip ends, collapse internal whitespace runs. -/
def norm_space (s : String) : String := ⟨collapseWs (stripL s.data)⟩

/-- Embeds `normalize_text` (bot.py:82): lowercase, strip ends, collapse whitespace. -/
def normalize_text (s : String) : String :=
  ⟨collapseWs (stripL (s.data.map toLowerChar))⟩

/-! ## HTML stripping (`strip_html`, bot.py:75) -/

/-- After `<b`/`<B` `r`/`R`, consume `\s*`, an optional `/`, and `>`;
returns the remainder on a match (the tail of a `<br\s*/?>` match). -/
def brTail (l : List Char) : Option (List Char) :=
  match l.dropWhile isPySpace with
  | '/' :: '>' :: rest => some rest
  | '>' :: rest => some rest
  | _ => none

/-- Fuel-driven scanner for `re.sub(r"<br\s*/?>", "\n", ·, flags=re.I)`:
replace each `<br>`-style tag (case-insensitive, optional whitespace and
self-closing slash) with a newline, scanning left to right.  Fuel is the
list length, which bounds the number of steps. -/
def brGo : Nat → List Char → List Char
  | 0, l => l
  | _ + 1, [] => []
  | f + 1, '<' :: b :: r :: rest =>
    if (b = 'b' || b = 'B') && (r = 'r' || r = 'R') then
      match brTail rest with
      | some rest' => '\n' :: brGo f rest'
      | none => '<' :: brGo f (b :: r :: rest)
    else '<' :: brGo f (b :: r :: rest)
  | f + 1, c :: cs => c :: brGo f cs

/-- Model of `re.sub(r"<br\s*/?>", "\n", ·, flags=re.I)`. -/
def brRemove (l : List Char) : List Char := brGo l.length l

/-- Attempt to match `[^>]+>` at the head: at least one non-`>` character,
then `>`; returns the remainder after the closing `>` on success. -/
def chopTag (l : List Char) : Option (List Char) :=
  let pre := l.takeWhile (fun c => c ≠ '>')
  if pre.isEmpty then none
  else
    match l.drop pre.length with
    | '>' :: rest => some rest
    | _ => none

/-- Fuel-driven scanner for `re.sub(r"<[^>]+>", "", ·)`: at each `<` that
begins a complete tag, drop through the closing `>`; otherwise keep the
character.  Fuel is the list length, which bounds the number of steps. -/
def tagGo : Nat → List Char → List Char
  | 0, l => l
  | _ + 1, [] => []
  | f + 1, '<' :: cs =>
    match chopTag cs with
    | some rest => tagGo f rest
    | none => '<' :: tagGo f cs
  | f + 1, c :: cs => c :: tagGo f cs

/-- Model of `re.sub(r"<[^>]+>", "", ·)`. -/
def tagRemove (l : List Char) : List Char := tagGo l.length l

/-- Model of the stdlib `html.unescape` restricted to the common named and
numeric character references exercised here; identity elsewhere.  (The
claims under verification do not depend on the full HTML5 entity table.) -/
def pyUnescape : List Char → List Char
  | '&' :: 'a' :: 'm' :: 'p' :: ';' :: rest => '&' :: pyUnescape rest
  | '&' :: 'l' :: 't' :: ';' :: rest => '<' :: pyUnescape rest
  | '&' :: 'g' :: 't' :: ';' :: rest => '>' :: pyUnescape rest
  | '&' :: 'q' :: 'u' :: 'o' :: 't' :: ';' :: rest => '"' :: pyUnescape rest
  | '&' :: 'a' :: 'p' :: 'o' :: 's' :: ';' :: rest => Char.ofNat 39 :: pyUnescape rest
  | '&' :: 'n' :: 'b' :: 's' :: 'p' :: ';' :: rest => ' ' :: pyUnescape rest
  | '&' :: '#' :: '3' :: '9' :: ';' :: rest => Char.ofNat 39 :: pyUnescape rest
  | c :: cs => c :: pyUnescape cs
  | [] => []

/-- Embeds `strip_html` (bot.py:75): turn `<br>`-style tags into newlines, remove
remaining tags, decode HTML entities. -/
def strip_html (s : String) : String :=
  ⟨pyUnescape (tagRemove (brRemove s.data))⟩

/-! ## SHA-256 (model of `hashlib.sha256(...).hexdigest()`, FIPS 180-4)

Words are `Nat` reduced modulo `2^32`; the message is a list of byte
values. -/

/-- Truncate to a 32-bit word. -/
def u32 (n : Nat) : Nat := n % 4294967296

/-- Rotate a 32-bit word right by `b` positions. -/
def rotr (b n : Nat) : Nat := u32 ((n >>> b) ||| (n <<< (32 - b)))

/-- Bitwise complement within 32 bits. -/
def compl32 (n : Nat) : Nat := n ^^^ 4294967295

def shaCh (x y z : Nat) : Nat := (x &&& y) ^^^ (compl32 x &&& z)

def shaMaj (x y z : Nat) : Nat := (x &&& y) ^^^ (x &&& z) ^^^ (y &&& z)

def bsig0 (x : Nat) : Nat := rotr 2 x ^^^ rotr 13 x ^^^ rotr 22 x

def bsig1 (x : Nat) : Nat := rotr 6 x ^^^ rotr 11 x ^^^ rotr 25 x

def ssig0 (x : Nat) : Nat := rotr 7 x ^^^ rotr 18 x ^^^ (x >>> 3)

def ssig1 (x : Nat) : Nat := rotr 17 x ^^^ rotr 19 x ^^^ (x >>> 10)

/-- The 64 round constants of FIPS 180-4 (decimal). -/
def shaK : List Nat :=
  [1116352408, 1899447441, 3049323471, 3921009573, 961987163,
   1508970993, 2453635748, 2870763221, 3624381080, 310598401,
   607225278, 1426881987, 1925078388, 2162078206, 2614888103,
   3248222580, 3835390401, 4022224774, 264347078, 604807628,
   770255983, 1249150122, 1555081692, 1996064986, 2554220882,
   2821834349, 2952996808, 3210313671, 3336571891, 3584528711,
   113926993, 338241895, 666307205, 773529912, 1294757372,
   1396182291, 1695183700, 1986661051, 2177026350, 2456956037,
   2730485921, 2820302411, 3259730800, 3345764771, 3516065817,
   3600352804, 4094571909, 275423344, 430227734, 506948616,
   659060556, 883997877, 958139571, 1322822218, 1537002063,
   1747873779, 1955562222, 2024104815, 2227730452, 2361852424,
   2428436474, 2756734187, 3204031479, 3329325298]

/-- The eight 32-bit working variables of the SHA-256 compression. -/
structure SHState where
  a : Nat
  b : Nat
  c : Nat
  d : Nat
  e : Nat
  f : Nat
  g : Nat
  h : Nat
deriving DecidableEq

/-- The initial hash value of FIPS 180-4 (decimal). -/
def shaInit : SHState :=
  ⟨1779033703, 3144134277, 1013904242, 2773480762,
   1359893119, 2600822924, 528734635, 1541459225⟩

/-- One round of the compression function. -/
def shaStep (w k : Nat) (s : SHState) : SHState :=
  let t1 := u32 (s.h + bsig1 s.e + shaCh s.e s.f s.g + k + w)
  let t2 := u32 (bsig0 s.a + shaMaj s.a s.b s.c)
  ⟨u32 (t1 + t2), s.a, s.b, s.c, u32 (s.d + t1), s.e, s.f, s.g⟩

/-- Run the 64 rounds over the schedule/constant pairs. -/
def shaRounds : List Nat → List Nat → SHState → SHState
  | [], _, s => s
  | _, [], s => s
  | w :: ws, k :: ks, s => shaRounds ws ks (shaStep w k s)

/-- Extend the message schedule; the accumulator keeps the words generated
so far in reverse order (newest first). -/
def schedExtend : Nat → List Nat → List Nat
  | 0, r => r
  | i + 1, r =>
    schedExtend i
      (u32 (ssig1 (r.getD 1 0) + r.getD 6 0 + ssig0 (r.getD 14 0) + r.getD 15 0) :: r)

/-- A big-endian 32-bit word from (up to) four bytes. -/
def beWord (bs : List Nat) : Nat := bs.foldl (fun acc b => acc * 256 + b) 0

/-- The sixteen big-endian words of a 64-byte block. -/
def blockWords (bs : List Nat) : List Nat :=
  (List.range 16).map fun i => beWord ((bs.drop (4 * i)).take 4)

/-- The 64-entry message schedule of a block. -/
def msgSchedule (bs : List Nat) : List Nat :=
  (schedExtend 48 (blockWords bs).reverse).reverse

/-- Compress one 64-byte block into the running hash state. -/
def processBlock (s : SHState) (bs : List Nat) : SHState :=
  let r := shaRounds (msgSchedule bs) shaK s
  ⟨u32 (s.a + r.a), u32 (s.b + r.b), u32 (s.c + r.c), u32 (s.d + r.d),
   u32 (s.e + r.e), u32 (s.f + r.f), u32 (s.g + r.g), u32 (s.h + r.h)⟩

/-- The `n` bytes of `v`, big-endian. -/
def beBytes (n v : Nat) : List Nat :=
  (List.range n).map fun i => (v >>> (8 * (n - 1 - i))) % 256

/-- SHA-256 padding: append `0x80`, zero bytes to 56 mod 64, and the
original bit length as eight big-endian bytes. -/
def padBytes (msg : List Nat) : List Nat :=
  msg ++ 128 :: List.replicate ((55 + 64 - msg.length % 64) % 64) 0
      ++ beBytes 8 (8 * msg.length)

/-- Split into 64-byte blocks (fuel-driven; fuel is the list length). -/
def chunkGo : Nat → List Nat → List (List Nat)
  | 0, _ => []
  | _ + 1, [] => []
  | f + 1, b :: bs => ((b :: bs).take 64) :: chunkGo f ((b :: bs).drop 64)

/-- The 64-byte blocks of a padded message. -/
def chunk64 (l : List Nat) : List (List Nat) := chunkGo l.length l

/-- SHA-256 of a byte list, as the final hash state. -/
def sha256Bytes (msg : List Nat) : SHState :=
  (chunk64 (padBytes msg)).foldl processBlock shaInit

/-- UTF-8 encoding of one code point. -/
def utf8Char (n : Nat) : List Nat :=
  if n < 128 then [n]
  else if n < 2048 then [192 + n / 64, 128 + n % 64]
  else if n < 65536 then [224 + n / 4096, 128 + (n / 64) % 64, 128 + n % 64]
  else [240 + n / 262144, 128 + (n / 4096) % 64, 128 + (n / 64) % 64, 128 + n % 64]

/-- UTF-8 bytes of a string (model of `str.encode("utf-8")`). -/
def utf8Bytes (s : String) : List Nat :=
  s.data.foldr (fun c acc => utf8Char c.toNat ++ acc) []

/-- Lowercase hexadecimal digit for a value below 16 (`'0'` past 15, which
never occurs on the values supplied). -/
def hexDigit (n : Nat) : Char :=
  match n with
  | 0 => '0' | 1 => '1' | 2 => '2' | 3 => '3' | 4 => '4' | 5 => '5'
  | 6 => '6' | 7 => '7' | 8 => '8' | 9 => '9' | 10 => 'a' | 11 => 'b'
  | 12 => 'c' | 13 => 'd' | 14 => 'e' | 15 => 'f' | _ => '0'

/-- Eight hex characters of a 32-bit word, most significant first. -/
def toHex8 (n : Nat) : List Char :=
  (List.range 8).map fun i => hexDigit ((n >>> (4 * (7 - i))) % 16)

/-- Render the final state as the 64-character hex digest. -/
def renderDigest (s : SHState) : String :=
  ⟨toHex8 s.a ++ toHex8 s.b ++ toHex8 s.c ++ toHex8 s.d
   ++ toHex8 s.e ++ toHex8 s.f ++ toHex8 s.g ++ toHex8 s.h⟩

/-- Model of `hashlib.sha256(s.encode("utf-8")).hexdigest()`. -/
def sha256hex (s : String) : String := renderDigest (sha256Bytes (utf8Bytes s))

/-! ## Data model

A feed entry as the code reads it: `getattr(entry, field, "")` over the
fields the pipeline touches.  A missing attribute and an empty string
behave identically everywhere (every access goes through `or` chains), so
absence is modelled as `""`/`none`.  The `*_parsed` fields carry the epoch
seconds `time.mktime` would return for the parsed time structure, when one
is present. -/

structure Entry where
  title : String := ""
  summary : String := ""
  description : String := ""
  link : String := ""
  published_parsed : Option Int := none
  updated_parsed : Option Int := none
deriving DecidableEq

/-- Python's `a or b` on strings: `b` when `a` is empty (falsy). -/
def pyOr (a b : String) : String := if a = "" then b else a

/-- Embeds `getattr(entry, "summary", "") or getattr(entry, "description", "")`
(bot.py:89 and bot.py:130). -/
def rawSummary (e : Entry) : String := pyOr e.summary e.description

/-- Embeds `short_summary` (bot.py:88): strip HTML, collapse whitespace; return
unchanged when within the budget, else truncate to `max_chars - 1`
characters, strip trailing whitespace, and append one ellipsis.  (The
subtraction is on `Nat`; the code's only call site uses the default 280,
and all theorems assume `1 ≤ max_chars`.) -/
def short_summary (e : Entry) (max_chars : Nat := 280) : String :=
  let txt := norm_space (strip_html (rawSummary e))
  if txt = "" then ""
  else if txt.length ≤ max_chars then txt
  else ⟨rstripL (txt.data.take (max_chars - 1)) ++ ['…']⟩

/-- Embeds `make_fingerprint` (bot.py:128): SHA-256 hex digest of
`"{source}|{title}|{summary[:600]}|{link}"` over the normalized fields. -/
def make_fingerprint (e : Entry) (source : String) : String :=
  let title := normalize_text e.title
  let summary := normalize_text (rawSummary e)
  let link := normalize_text e.link
  sha256hex (normalize_text source ++ "|" ++ title ++ "|"
    ++ (⟨summary.data.take 600⟩ : String) ++ "|" ++ link)

/-- Embeds `entry_time` (bot.py:175): best-effort timestamp, preferring
`published_parsed`, falling back to `updated_parsed`, defaulting to 0. -/
def entry_time (e : Entry) : Int :=
  match e.published_parsed.orElse (fun _ => e.updated_parsed) with
  | some t => t
  | none => 0

/-! ## Source naming -/

/-- A character allowed after the first in a URL scheme. -/
def isSchemeChar (c : Char) : Bool :=
  c.isAlphanum || c = '+' || c = '-' || c = '.'

/-- Drop a leading `scheme:` (letter, then letters/digits/`+`/`-`/`.`),
when present. -/
def splitScheme (l : List Char) : List Char :=
  match l with
  | [] => []
  | c :: cs =>
    if c.isAlpha then
      match cs.dropWhile isSchemeChar with
      | ':' :: tail => tail
      | _ => l
    else l

/-- Model of `urlparse(url).netloc`: present only after a leading `//` (possibly
preceded by a scheme), running to the next `/`, `?` or `#`. -/
def netloc (url : String) : String :=
  match splitScheme url.data with
  | '/' :: '/' :: rest =>
    ⟨rest.takeWhile (fun c => c ≠ '/' && c ≠ '?' && c ≠ '#')⟩
  | _ => ""

/-- Python `str.replace("www.", "")`: remove every non-overlapping
occurrence of `"www."`, scanning left to right. -/
def removeWwwL : List Char → List Char
  | 'w' :: 'w' :: 'w' :: '.' :: rest => removeWwwL rest
  | c :: cs => c :: removeWwwL cs
  | [] => []

/-- Embeds `host_from_url` (bot.py:101): `urlparse(url).netloc.lower().replace("www.", "")`. -/
def host_from_url (url : String) : String :=
  ⟨removeWwwL ((netloc url).data.map toLowerChar)⟩

/-- Embeds `nice_source_name` (bot.py:109), with the feed's declared title already
extracted: prefer the normalized title, else the host of the fallback
link, else the literal `"Source"`. -/
def nice_source_name (feedTitle : String) (fallback_link : String) : String :=
  let title := norm_space feedTitle
  if title ≠ "" then title
  else
    let host := host_from_url fallback_link
    if host = "" then "Source" else host

/-- The fallback link chosen by `parse_feed` (bot.py:191): the first
entry's link when entries exist and that link is non-empty. -/
def feedFallbackLink : List Entry → String
  | [] => ""
  | e :: _ => if e.link ≠ "" then e.link else ""

/-- The source name `parse_feed` (bot.py:186) resolves for a feed with the
given declared title and entries. -/
def resolveSourceName (feedTitle : String) (entries : List Entry) : String :=
  nice_source_name feedTitle (feedFallbackLink entries)

/-! ## The main loop (bot.py:207) -/

/-- Python `l[-limit:]` for a nonnegative `limit` (bot.py:260): the whole
list when `limit = 0` (since `l[-0:]` is `l[0:]`), else the last `limit`
elements. -/
def pyLastSlice (limit : Nat) (l : List String) : List String :=
  if limit = 0 then l else l.drop (l.length - limit)

/-- The sort key comparison of bot.py:227 (`key=lambda x: entry_time(x[0])`). -/
def timeLe (x y : Entry × String) : Bool :=
  decide (entry_time x.1 ≤ entry_time y.1)

/-- The posting loop of `main` (bot.py:233–257).  Arguments after the
items: the accumulated `seen_set`, `used_sources`, `posted`, and the index
of the next `telegram_send` attempt, whose outcome `oracle` gives.
Returns the successfully dispatched items and `new_seen`. -/
def postLoop (oracle : Nat → Bool) (ops : Bool) (maxPosts : Nat) :
    List (Entry × String) → List String → List String → Nat → Nat →
    List (Entry × String) × List String
  | [], _, _, _, _ => ([], [])
  | (e, source) :: rest, seenSet, used, posted, att =>
    let fp := make_fingerprint e source
    if fp = "" ∨ fp ∈ seenSet then
      postLoop oracle ops maxPosts rest seenSet used posted att
    else if ops = true ∧ source ∈ used then
      postLoop oracle ops maxPosts rest seenSet used posted att
    else if oracle att then
      if posted + 1 ≥ maxPosts then ([(e, source)], [fp])
      else
        let r := postLoop oracle ops maxPosts rest (fp :: seenSet)
          (source :: used) (posted + 1) (att + 1)
        ((e, source) :: r.1, fp :: r.2)
    else ([], [])

/-- Embeds `main` (bot.py:207) from the point where the collected candidate list
is in hand: `none` when there is nothing collected (early return without
persisting), otherwise `some (persisted seen list, dispatched items)`. -/
def runMain (oracle : Nat → Bool) (ops : Bool) (maxPosts seenLimit : Nat)
    (seen : List String) (collected : List (Entry × String)) :
    Option (List String × List (Entry × String)) :=
  if collected = [] then none
  else
    let sorted := collected.mergeSort timeLe
    let r := postLoop oracle ops maxPosts sorted seen [] 0 0
    some (pyLastSlice seenLimit (seen ++ r.2), r.1)

/-- The all-success transport oracle: the hypothetical run in which every
send succeeds; its accepted sequence is the run's plan. -/
def alwaysOk : Nat → Bool := fun _ => true

/-- The planned items of a run: what the loop accepts when no send fails. -/
def runPlan (ops : Bool) (maxPosts : Nat) (seen : List String)
    (collected : List (Entry × String)) : List (Entry × String) :=
  (postLoop alwaysOk ops maxPosts (collected.mergeSort timeLe) seen [] 0 0).1

/-- One fingerprint of a collected (entry, source) pair. -/
def fpOf (x : Entry × String) : String := make_fingerprint x.1 x.2

/-- Lowercase hexadecimal digits. -/
def isHexLowerChar (c : Char) : Bool :=
  ('0' ≤ c && c ≤ '9') || ('a' ≤ c && c ≤ 'f')

/-! ## Concrete instances used in counterexamples and witnesses -/

/-- A first dated witness entry. -/
def wE1 : Entry :=
  { title := "First", link := "https://a.example/1", published_parsed := some 100 }

/-- A second dated witness entry from another source. -/
def wE2 : Entry :=
  { title := "Second", link := "https://b.example/2", published_parsed := some 200 }

/-- A minimal eligible entry. -/
def cexEntry : Entry := { title := "hello", link := "https://x/only" }

/-- An entry with every field absent/empty. -/
def emptyEntry : Entry := {}

/-- Summary carrying HTML markup. -/
def c1html : Entry := { summary := "<b>hello</b>" }

/-- The same summary without markup. -/
def c1plain : Entry := { summary := "hello" }

/-- Casing/whitespace variant A. -/
def c1wA : Entry :=
  { title := "Hello   World", summary := "Bonjour", link := "https://x/a" }

/-- Casing/whitespace variant B of the same content. -/
def c1wB : Entry :=
  { title := " hello world ", summary := "  BONJOUR", link := "HTTPS://X/A" }

/-- A summary whose rendered text has 281 characters and a space at
index 278, exercising the truncation path. -/
def c8Entry : Entry := { summary := String.join (List.replicate 94 "ab ") }

/-- A short summary exceeding a budget of 5. -/
def c8wEntry : Entry := { summary := "abc d xyz" }

/-- An entry whose link host contains an inner `www.`. -/
def c9Entry : Entry := { link := "https://sub.www.example.com/a" }

/-! ## Digest shape lemmas -/

theorem toHex8_length (n : Nat) : (toHex8 n).length = 8 := by
  simp [toHex8]

theorem hexDigit_hex (n : Nat) : isHexLowerChar (hexDigit n) = true := by
  unfold hexDigit
  split <;> decide

theorem toHex8_hex (n : Nat) : (toHex8 n).all isHexLowerChar = true := by
  simp only [toHex8, List.all_eq_true, List.mem_map, List.mem_range]
  rintro c ⟨i, -, rfl⟩
  exact hexDigit_hex _

theorem renderDigest_length (s : SHState) : (renderDigest s).length = 64 := by
  simp [renderDigest, String.length, toHex8_length]

theorem renderDigest_hex (s : SHState) :
    (renderDigest s).data.all isHexLowerChar = true := by
  simp [renderDigest, List.all_append, toHex8_hex]

theorem sha256hex_length (s : String) : (sha256hex s).length = 64 :=
  renderDigest_length _

theorem make_fingerprint_length (e : Entry) (s : String) :
    (make_fingerprint e s).length = 64 :=
  sha256hex_length _

theorem make_fingerprint_hex (e : Entry) (s : String) :
    (make_fingerprint e s).data.all isHexLowerChar = true :=
  renderDigest_hex _

theorem make_fingerprint_ne_empty (e : Entry) (s : String) :
    make_fingerprint e s ≠ "" := by
  intro h
  have h64 := make_fingerprint_length e s
  rw [h] at h64
  simp [String.length] at h64

/-! ## Loop invariants -/

/-- The list `new_seen` is exactly the fingerprints of the dispatched items, in
order. -/
theorem postLoop_snd (oracle : Nat → Bool) (ops : Bool) (mp : Nat) :
    ∀ (items : List (Entry × String)) (seenSet used : List String)
      (posted att : Nat),
    (postLoop oracle ops mp items seenSet used posted att).2
      = (postLoop oracle ops mp items seenSet used posted att).1.map fpOf
  | [], _, _, _, _ => rfl
  | (e, src) :: rest, seenSet, used, posted, att => by
    simp only [postLoop]
    split
    · exact postLoop_snd oracle ops mp rest seenSet used posted att
    · split
      · exact postLoop_snd oracle ops mp rest seenSet used posted att
      · split
        · split
          · rfl
          · simp only [List.map_cons, List.cons.injEq]
            exact ⟨rfl, postLoop_snd oracle ops mp rest _ _ _ _⟩
        · rfl

/-- The dispatched items form a sublist of the input walk. -/
theorem postLoop_sublist (oracle : Nat → Bool) (ops : Bool) (mp : Nat) :
    ∀ (items : List (Entry × String)) (seenSet used : List String)
      (posted att : Nat),
    (postLoop oracle ops mp items seenSet used posted att).1.Sublist items
  | [], _, _, _, _ => List.Sublist.refl _
  | (e, src) :: rest, seenSet, used, posted, att => by
    simp only [postLoop]
    split
    · exact (postLoop_sublist oracle ops mp rest seenSet used posted att).cons _
    · split
      · exact (postLoop_sublist oracle ops mp rest seenSet used posted att).cons _
      · split
        · split
          · simp
          · exact (postLoop_sublist oracle ops mp rest _ _ _ _).cons₂ _
        · exact (List.nil_sublist _).cons _

/-- With fewer posts than the cap so far, the loop adds at most
`mp - posted` further items. -/
theorem postLoop_length (oracle : Nat → Bool) (ops : Bool) (mp : Nat) :
    ∀ (items : List (Entry × String)) (seenSet used : List String)
      (posted att : Nat), posted < mp →
    (postLoop oracle ops mp items seenSet used posted att).1.length + posted ≤ mp
  | [], _, _, _, _, h => by simp only [postLoop, List.length_nil]; omega
  | (e, src) :: rest, seenSet, used, posted, att, h => by
    simp only [postLoop]
    split
    · exact postLoop_length oracle ops mp rest seenSet used posted att h
    · split
      · exact postLoop_length oracle ops mp rest seenSet used posted att h
      · split
        · split
          · simp only [List.length_cons, List.length_nil]; omega
          · rename_i hcap
            have h' : posted + 1 < mp := by omega
            have := postLoop_length oracle ops mp rest (make_fingerprint e src :: seenSet)
              (src :: used) (posted + 1) (att + 1) h'
            simp only [List.length_cons]
            omega
        · simpa using h.le

/-- With the diversity rule on, dispatched source names avoid the already
used ones and are pairwise distinct. -/
theorem postLoop_sources (oracle : Nat → Bool) (mp : Nat) :
    ∀ (items : List (Entry × String)) (seenSet used : List String)
      (posted att : Nat),
    (∀ s ∈ (postLoop oracle true mp items seenSet used posted att).1.map Prod.snd,
        s ∉ used)
    ∧ ((postLoop oracle true mp items seenSet used posted att).1.map Prod.snd).Nodup
  | [], _, _, _, _ => by simp [postLoop]
  | (e, src) :: rest, seenSet, used, posted, att => by
    simp only [postLoop]
    split
    · exact postLoop_sources oracle mp rest seenSet used posted att
    · split
      · exact postLoop_sources oracle mp rest seenSet used posted att
      · split
        · split
          · rename_i hfp hused hok hcap
            refine ⟨?_, by simp⟩
            intro s hs
            simp only [List.map_cons, List.map_nil, List.mem_singleton] at hs
            subst hs
            intro hmem
            exact hused ⟨by trivial, hmem⟩
          · rename_i hfp hused hok hcap
            obtain ⟨ih1, ih2⟩ := postLoop_sources oracle mp rest
              (make_fingerprint e src :: seenSet) (src :: used) (posted + 1) (att + 1)
            constructor
            · intro s hs
              simp only [List.map_cons, List.mem_cons] at hs
              rcases hs with rfl | hs
              · intro hmem; exact hused ⟨by trivial, hmem⟩
              · exact fun hmem => ih1 s hs (List.mem_cons_of_mem _ hmem)
            · simp only [List.map_cons, List.nodup_cons]
              exact ⟨fun hmem => ih1 src hmem (List.mem_cons_self _ _), ih2⟩
        · simp

/-- Dispatched fingerprints are fresh with respect to the starting seen
set, and pairwise distinct. -/
theorem postLoop_fps (oracle : Nat → Bool) (ops : Bool) (mp : Nat) :
    ∀ (items : List (Entry × String)) (seenSet used : List String)
      (posted att : Nat),
    (∀ f ∈ (postLoop oracle ops mp items seenSet used posted att).2, f ∉ seenSet)
    ∧ (postLoop oracle ops mp items seenSet used posted att).2.Nodup
  | [], _, _, _, _ => by simp [postLoop]
  | (e, src) :: rest, seenSet, used, posted, att => by
    simp only [postLoop]
    split
    · exact postLoop_fps oracle ops mp rest seenSet used posted att
    · split
      · exact postLoop_fps oracle ops mp rest seenSet used posted att
      · split
        · split
          · rename_i hfp hused hok hcap
            refine ⟨?_, by simp⟩
            intro f hf
            simp only [List.mem_singleton] at hf
            subst hf
            exact fun hmem => hfp (Or.inr hmem)
          · rename_i hfp hused hok hcap
            obtain ⟨ih1, ih2⟩ := postLoop_fps oracle ops mp rest
              (make_fingerprint e src :: seenSet) (src :: used) (posted + 1) (att + 1)
            constructor
            · intro f hf
              simp only [List.mem_cons] at hf
              rcases hf with rfl | hf
              · exact fun hmem => hfp (Or.inr hmem)
              · exact fun hmem => ih1 f hf (List.mem_cons_of_mem _ hmem)
            · simp only [List.nodup_cons]
              exact ⟨fun hmem => ih1 _ hmem (List.mem_cons_self _ _), ih2⟩
        · simp

/-- When the transport succeeds on the first `m` attempts and fails on the
next, the run dispatches exactly the first `m` planned items of the walk
(and records exactly their fingerprints). -/
theorem postLoop_fail (oracle : Nat → Bool) (ops : Bool) (mp : Nat) :
    ∀ (items : List (Entry × String)) (seenSet used : List String)
      (posted att m : Nat),
    (∀ i, i < m → oracle (att + i) = true) →
    oracle (att + m) = false →
    postLoop oracle ops mp items seenSet used posted att
      = ((postLoop alwaysOk ops mp items seenSet used posted att).1.take m,
         (postLoop alwaysOk ops mp items seenSet used posted att).2.take m)
  | [], _, _, _, _, _, _, _ => by simp [postLoop]
  | (e, src) :: rest, seenSet, used, posted, att, m, hsucc, hfail => by
    simp only [postLoop]
    split
    · exact postLoop_fail oracle ops mp rest seenSet used posted att m hsucc hfail
    · split
      · exact postLoop_fail oracle ops mp rest seenSet used posted att m hsucc hfail
      · simp only [alwaysOk, if_true]
        match m with
        | 0 =>
          have h0 : oracle att = false := by simpa using hfail
          rw [h0]
          simp
        | m' + 1 =>
          have h1 : oracle att = true := by simpa using hsucc 0 (Nat.succ_pos m')
          rw [h1]
          simp only [if_true]
          split
          · simp
          · have hsucc' : ∀ i, i < m' → oracle (att + 1 + i) = true := by
              intro i hi
              have := hsucc (i + 1) (by omega)
              simpa [Nat.add_assoc, Nat.add_comm 1 i] using this
            have hfail' : oracle (att + 1 + m') = false := by
              have := hfail
              simpa [Nat.add_assoc, Nat.add_comm 1 m'] using this
            rw [postLoop_fail oracle ops mp rest
              (make_fingerprint e src :: seenSet) (src :: used) (posted + 1) (att + 1)
              m' hsucc' hfail']
            simp

/-! ## Small auxiliary lemmas -/

set_option maxRecDepth 100000 in
/-- Sanity check of the SHA-256 embedding against the FIPS 180-4 test
vector for `"abc"`. -/
theorem sha256hex_abc :
    sha256hex "abc"
      = "ba7816bf8f01cfea414140de5dae2223b00361a396177a9cb410ff61f20015ad" := by
  decide

theorem pyLastSlice_suffix (limit : Nat) (l : List String) :
    (pyLastSlice limit l).IsSuffix l := by
  unfold pyLastSlice
  split
  · exact List.suffix_refl l
  · exact List.drop_suffix _ _

theorem pyLastSlice_eq_drop (limit : Nat) (hlim : limit ≠ 0) (l : List String) :
    pyLastSlice limit l = l.drop (l.length - limit) := by
  unfold pyLastSlice
  exact if_neg hlim

theorem nodup_drop_not_mem_take {α : Type} (l : List α) (n : Nat)
    (h : l.Nodup) : ∀ a ∈ l.drop n, a ∉ l.take n := by
  have h' : (l.take n ++ l.drop n).Nodup := by
    rw [List.take_append_drop]; exact h
  obtain ⟨-, -, hdisj⟩ := List.nodup_append.mp h'
  exact fun a ha hmem => hdisj hmem ha

theorem timeLe_trans : ∀ a b c : Entry × String,
    timeLe a b → timeLe b c → timeLe a c := by
  intro a b c hab hbc
  simp only [timeLe, decide_eq_true_eq] at hab hbc ⊢
  omega

theorem timeLe_total : ∀ a b : Entry × String, timeLe a b || timeLe b a := by
  intro a b
  simp only [timeLe, Bool.or_eq_true, decide_eq_true_eq]
  omega

/-- Evaluation form of `runMain` on an already time-sorted candidate list
(the sort leaves such a list unchanged). -/
theorem runMain_eq_of_sorted (oracle : Nat → Bool) (ops : Bool)
    (mp limit : Nat) (seen : List String) (collected : List (Entry × String))
    (hs : collected.Pairwise (fun a b => timeLe a b = true))
    (hne : collected ≠ []) :
    runMain oracle ops mp limit seen collected
      = some (pyLastSlice limit
            (seen ++ (postLoop oracle ops mp collected seen [] 0 0).2),
          (postLoop oracle ops mp collected seen [] 0 0).1) := by
  unfold runMain
  rw [if_neg hne, List.mergeSort_of_sorted hs]

/-- Evaluation form of `runPlan` on an already time-sorted candidate
list. -/
theorem runPlan_eq_of_sorted (ops : Bool) (mp : Nat) (seen : List String)
    (collected : List (Entry × String))
    (hs : collected.Pairwise (fun a b => timeLe a b = true)) :
    runPlan ops mp seen collected
      = (postLoop alwaysOk ops mp collected seen [] 0 0).1 := by
  unfold runPlan
  rw [List.mergeSort_of_sorted hs]

/-- Evaluation form of `runMain` on a nonempty candidate list. -/
theorem runMain_eq (oracle : Nat → Bool) (ops : Bool) (mp limit : Nat)
    (seen : List String) (collected : List (Entry × String))
    (hne : collected ≠ []) :
    runMain oracle ops mp limit seen collected
      = some (pyLastSlice limit
            (seen ++ (postLoop oracle ops mp (collected.mergeSort timeLe) seen [] 0 0).2),
          (postLoop oracle ops mp (collected.mergeSort timeLe) seen [] 0 0).1) := by
  unfold runMain
  rw [if_neg hne]

/-! ## Claims -/

set_option maxRecDepth 1000000 in
/-- C1 (counterexample): two CandidateItems identical except that one
summary carries HTML markup (`<b>hello</b>` vs `hello`) — so that after
HTML stripping the rendered summaries agree — nevertheless receive
different Fingerprints: `make_fingerprint` lowercases and collapses
whitespace but does not strip markup, refuting "a summary with and without
HTML tags yields the same Fingerprint". -/
theorem c1_counterexample :
    norm_space (strip_html (rawSummary c1html))
      = norm_space (strip_html (rawSummary c1plain))
  ∧ c1html.title = c1plain.title
  ∧ c1html.link = c1plain.link
  ∧ make_fingerprint c1html "src" ≠ make_fingerprint c1plain "src" :=
  ⟨by decide, rfl, rfl, by decide⟩

/-- C1 (amended): if title, summary, link and source name agree after
lowercasing and whitespace-collapsing (`normalize_text`), the Fingerprints
agree — so raw casing and incidental whitespace cannot distinguish two
items; HTML markup, however, is fingerprinted verbatim. -/
theorem c1_fingerprint_stable (e₁ e₂ : Entry) (s₁ s₂ : String)
    (ht : normalize_text e₁.title = normalize_text e₂.title)
    (hs : normalize_text (rawSummary e₁) = normalize_text (rawSummary e₂))
    (hl : normalize_text e₁.link = normalize_text e₂.link)
    (hsrc : normalize_text s₁ = normalize_text s₂) :
    make_fingerprint e₁ s₁ = make_fingerprint e₂ s₂ := by
  unfold make_fingerprint
  rw [ht, hs, hl, hsrc]

set_option maxRecDepth 1000000 in
/-- C1 witness: a concrete pair differing only in casing and whitespace. -/
theorem c1_witness :
    (normalize_text c1wA.title = normalize_text c1wB.title
      ∧ normalize_text (rawSummary c1wA) = normalize_text (rawSummary c1wB)
      ∧ normalize_text c1wA.link = normalize_text c1wB.link
      ∧ normalize_text "Le Monde" = normalize_text " le  monde ")
    ∧ make_fingerprint c1wA "Le Monde" = make_fingerprint c1wB " le  monde " :=
  ⟨⟨by decide, by decide, by decide, by decide⟩,
    c1_fingerprint_stable c1wA c1wB "Le Monde" " le  monde "
      (by decide) (by decide) (by decide) (by decide)⟩

/-- C10: for every entry and source name, `make_fingerprint` returns a
64-character string of lowercase hexadecimal digits; consequently the
planning loop's skip condition `fp = "" ∨ fp ∈ seen_set` collapses to
`fp ∈ seen_set` — the empty-fingerprint branch is never taken. -/
theorem c10_fingerprint_nonempty_hex (e : Entry) (s : String) :
    (make_fingerprint e s).length = 64
  ∧ (make_fingerprint e s).data.all isHexLowerChar = true
  ∧ ∀ seenSet : List String,
      ((make_fingerprint e s = "" ∨ make_fingerprint e s ∈ seenSet)
        ↔ make_fingerprint e s ∈ seenSet) := by
  refine ⟨make_fingerprint_length e s, make_fingerprint_hex e s, fun seenSet => ?_⟩
  constructor
  · rintro (h | h)
    · exact absurd h (make_fingerprint_ne_empty e s)
    · exact h
  · exact Or.inr

/-- C2: when dispatch of the k-th planned item fails (attempts are
0-indexed: the first k−1 succeed, attempt k−1 fails), the run dispatches
exactly the first k−1 planned items, persists the previous seen list
extended by exactly their fingerprints (then bounded by the limit), the
run still completes and persists (`runMain` returns `some`), and no
planned item from position k on is dispatched or has its fingerprint
persisted. -/
theorem c2_partial_failure (ops : Bool) (mp limit : Nat) (seen : List String)
    (collected : List (Entry × String)) (oracle : Nat → Bool) (k : Nat)
    (hk : 1 ≤ k)
    (hlen : k ≤ (runPlan ops mp seen collected).length)
    (hsucc : ∀ i, i < k - 1 → oracle i = true)
    (hfail : oracle (k - 1) = false) :
    runMain oracle ops mp limit seen collected
      = some (pyLastSlice limit
            (seen ++ ((runPlan ops mp seen collected).take (k - 1)).map fpOf),
          (runPlan ops mp seen collected).take (k - 1))
    ∧ ∀ x ∈ (runPlan ops mp seen collected).drop (k - 1),
        x ∉ (runPlan ops mp seen collected).take (k - 1)
        ∧ fpOf x ∉ pyLastSlice limit
            (seen ++ ((runPlan ops mp seen collected).take (k - 1)).map fpOf) := by
  have hne : collected ≠ [] := by
    intro hcol
    rw [hcol] at hlen
    simp [runPlan, postLoop] at hlen
    omega
  have hrw := postLoop_fail oracle ops mp (collected.mergeSort timeLe) seen [] 0 0
    (k - 1) (fun i hi => by simpa using hsucc i hi) (by simpa using hfail)
  have hsnd := postLoop_snd alwaysOk ops mp (collected.mergeSort timeLe) seen [] 0 0
  have hplan : runPlan ops mp seen collected
      = (postLoop alwaysOk ops mp (collected.mergeSort timeLe) seen [] 0 0).1 := rfl
  constructor
  · rw [runMain_eq oracle ops mp limit seen collected hne, hrw, hplan,
      List.map_take, ← hsnd]
  · intro x hx
    have hfpsnodup :
        (postLoop alwaysOk ops mp (collected.mergeSort timeLe) seen [] 0 0).2.Nodup :=
      (postLoop_fps alwaysOk ops mp (collected.mergeSort timeLe) seen [] 0 0).2
    have hfresh :=
      (postLoop_fps alwaysOk ops mp (collected.mergeSort timeLe) seen [] 0 0).1
    have hmapnodup : ((runPlan ops mp seen collected).map fpOf).Nodup := by
      rw [hplan, ← hsnd]
      exact hfpsnodup
    have hplannodup : (runPlan ops mp seen collected).Nodup :=
      List.Nodup.of_map fpOf hmapnodup
    constructor
    · exact nodup_drop_not_mem_take _ _ hplannodup x hx
    · intro hmem
      have hsub := (pyLastSlice_suffix limit _).subset hmem
      rcases List.mem_append.mp hsub with hseen | htake
      · have hxplan : x ∈ runPlan ops mp seen collected := List.drop_subset _ _ hx
        have hxfps : fpOf x
            ∈ (postLoop alwaysOk ops mp (collected.mergeSort timeLe) seen [] 0 0).2 := by
          rw [hsnd]
          exact List.mem_map_of_mem fpOf (by rw [← hplan]; exact hxplan)
        exact hfresh _ hxfps hseen
      · have h1 : fpOf x ∈ ((runPlan ops mp seen collected).map fpOf).drop (k - 1) := by
          rw [← List.map_drop]
          exact List.mem_map_of_mem fpOf hx
        have h2 : fpOf x ∈ ((runPlan ops mp seen collected).map fpOf).take (k - 1) := by
          rw [← List.map_take]
          exact htake
        exact nodup_drop_not_mem_take _ _ hmapnodup _ h1 h2

set_option maxRecDepth 1000000 in
/-- C2 witness: two planned items, the transport fails on the second
attempt (k = 2): only the first item is dispatched and committed. -/
theorem c2_witness :
    (1 ≤ 2
     ∧ 2 ≤ (runPlan false 6 [] [(wE1, "s1"), (wE2, "s2")]).length
     ∧ (∀ i, i < 2 - 1 → (fun j => decide (j = 0)) i = true)
     ∧ (fun j => decide (j = 0)) (2 - 1) = false)
    ∧ runMain (fun j => decide (j = 0)) false 6 2000 [] [(wE1, "s1"), (wE2, "s2")]
        = some (pyLastSlice 2000
              ([] ++ ((runPlan false 6 [] [(wE1, "s1"), (wE2, "s2")]).take (2 - 1)).map fpOf),
            (runPlan false 6 [] [(wE1, "s1"), (wE2, "s2")]).take (2 - 1)) := by
  have hplanlen : 2 ≤ (runPlan false 6 [] [(wE1, "s1"), (wE2, "s2")]).length := by
    rw [runPlan_eq_of_sorted false 6 [] [(wE1, "s1"), (wE2, "s2")] (by decide)]
    decide
  exact ⟨⟨by decide, hplanlen, by decide, by decide⟩,
    (c2_partial_failure false 6 2000 [] [(wE1, "s1"), (wE2, "s2")]
      (fun j => decide (j = 0)) 2 (by decide) hplanlen (by decide) (by decide)).1⟩

set_option maxRecDepth 1000000 in
/-- C3 (counterexample): with `SEEN_LIMIT = 0` the Python slice
`(seen + new_seen)[-0:]` is the whole list, so a run that delivers one new
item on top of one old fingerprint persists 2 entries — more than the
configured limit 0. -/
theorem c3_counterexample :
    (runMain alwaysOk true 6 0 ["old"] [(cexEntry, "s")]).map (fun r => r.1.length)
      = some 2
  ∧ ¬(2 ≤ 0) := by
  refine ⟨?_, by decide⟩
  rw [runMain_eq_of_sorted alwaysOk true 6 0 ["old"] [(cexEntry, "s")]
    (by decide) (by decide)]
  decide

/-- C3 (amended): for every positive `SEEN_LIMIT`, a run that persists
state persists at most `SEEN_LIMIT` fingerprints, namely exactly the
suffix (most recently appended, original insertion order) of the previous
seen list extended by the fingerprints of the items delivered this run;
when the combined list reaches the limit, exactly `SEEN_LIMIT` entries are
retained. -/
theorem c3_bounded_state (oracle : Nat → Bool) (ops : Bool) (mp limit : Nat)
    (seen : List String) (collected : List (Entry × String))
    (persisted : List String) (sent : List (Entry × String))
    (hlim : 1 ≤ limit)
    (hrun : runMain oracle ops mp limit seen collected = some (persisted, sent)) :
    persisted.length ≤ limit
    ∧ persisted
        = (seen ++ sent.map fpOf).drop ((seen ++ sent.map fpOf).length - limit)
    ∧ persisted.IsSuffix (seen ++ sent.map fpOf)
    ∧ (limit ≤ (seen ++ sent.map fpOf).length → persisted.length = limit) := by
  unfold runMain at hrun
  split at hrun
  · exact absurd hrun (by simp)
  · simp only [Option.some.injEq, Prod.mk.injEq] at hrun
    obtain ⟨hp, hs⟩ := hrun
    subst hs
    rw [postLoop_snd oracle ops mp (collected.mergeSort timeLe) seen [] 0 0] at hp
    subst hp
    rw [pyLastSlice_eq_drop limit (by omega)]
    refine ⟨?_, rfl, List.drop_suffix _ _, ?_⟩
    · rw [List.length_drop]; omega
    · intro hle; rw [List.length_drop]; omega

set_option maxRecDepth 1000000 in
/-- C3 witness: previous seen list `["old"]`, limit 1, one delivery — the
single retained entry is the new fingerprint. -/
theorem c3_witness :
    (1 ≤ 1
     ∧ runMain alwaysOk false 6 1 ["old"] [(wE1, "s1")]
        = some (["d48f65e6dd4ca46640646df5860fd3808eccca649b110c528250b12d104f69b7"],
                [(wE1, "s1")]))
    ∧ ["d48f65e6dd4ca46640646df5860fd3808eccca649b110c528250b12d104f69b7"].length ≤ 1 := by
  have h : runMain alwaysOk false 6 1 ["old"] [(wE1, "s1")]
      = some (["d48f65e6dd4ca46640646df5860fd3808eccca649b110c528250b12d104f69b7"],
              [(wE1, "s1")]) := by
    rw [runMain_eq_of_sorted alwaysOk false 6 1 ["old"] [(wE1, "s1")]
      (by decide) (by decide)]
    decide
  exact ⟨⟨Nat.le_refl 1, h⟩,
    (c3_bounded_state alwaysOk false 6 1 ["old"] [(wE1, "s1")] _ _ (Nat.le_refl 1) h).1⟩

/-- C4: dispatched items are sent in ascending best-effort timestamp order
(an item with no parseable timestamp has `entry_time` 0), and the sort is
stable: any input-ordered pair already in `timeLe` order — in particular a
pair with equal timestamps — remains in that order in the sorted walk. -/
theorem c4_dispatch_ordered (oracle : Nat → Bool) (ops : Bool) (mp limit : Nat)
    (seen : List String) (collected : List (Entry × String))
    (persisted : List String) (sent : List (Entry × String))
    (hrun : runMain oracle ops mp limit seen collected = some (persisted, sent)) :
    sent.Pairwise (fun x y => entry_time x.1 ≤ entry_time y.1)
    ∧ ∀ x y : Entry × String, entry_time x.1 ≤ entry_time y.1 →
        [x, y].Sublist collected → [x, y].Sublist (collected.mergeSort timeLe) := by
  constructor
  · unfold runMain at hrun
    split at hrun
    · exact absurd hrun (by simp)
    · simp only [Option.some.injEq, Prod.mk.injEq] at hrun
      obtain ⟨-, hs⟩ := hrun
      subst hs
      have hsub := postLoop_sublist oracle ops mp (collected.mergeSort timeLe) seen [] 0 0
      have hsorted := List.sorted_mergeSort timeLe_trans timeLe_total collected
      have hsorted' : (collected.mergeSort timeLe).Pairwise
          (fun x y => entry_time x.1 ≤ entry_time y.1) :=
        hsorted.imp (fun hab => by simpa [timeLe, decide_eq_true_eq] using hab)
      exact hsorted'.sublist hsub
  · intro x y hxy hsub
    exact List.pair_sublist_mergeSort timeLe_trans timeLe_total
      (by simpa [timeLe, decide_eq_true_eq] using hxy) hsub

set_option maxRecDepth 1000000 in
/-- C4 witness: a concrete two-item run, dispatched oldest first. -/
theorem c4_witness :
    runMain alwaysOk true 6 2000 [] [(wE1, "s1"), (wE2, "s2")]
      = some (["d48f65e6dd4ca46640646df5860fd3808eccca649b110c528250b12d104f69b7",
               "4ed7287e69b7557364972baec7309155e0d5148381a3a95740d82905e82e8b7c"],
              [(wE1, "s1"), (wE2, "s2")])
    ∧ ([(wE1, "s1"), (wE2, "s2")] : List (Entry × String)).Pairwise
        (fun x y => entry_time x.1 ≤ entry_time y.1) := by
  have h : runMain alwaysOk true 6 2000 [] [(wE1, "s1"), (wE2, "s2")]
      = some (["d48f65e6dd4ca46640646df5860fd3808eccca649b110c528250b12d104f69b7",
               "4ed7287e69b7557364972baec7309155e0d5148381a3a95740d82905e82e8b7c"],
              [(wE1, "s1"), (wE2, "s2")]) := by
    rw [runMain_eq_of_sorted alwaysOk true 6 2000 [] [(wE1, "s1"), (wE2, "s2")]
      (by decide) (by decide)]
    decide
  exact ⟨h, (c4_dispatch_ordered alwaysOk true 6 2000 [] _ _ _ h).1⟩

/-- C5: with the one-per-source rule enabled, no two items dispatched in
one run share a resolved source name. -/
theorem c5_diversity (oracle : Nat → Bool) (mp limit : Nat) (seen : List String)
    (collected : List (Entry × String)) (persisted : List String)
    (sent : List (Entry × String))
    (hrun : runMain oracle true mp limit seen collected = some (persisted, sent)) :
    (sent.map Prod.snd).Nodup := by
  unfold runMain at hrun
  split at hrun
  · exact absurd hrun (by simp)
  · simp only [Option.some.injEq, Prod.mk.injEq] at hrun
    obtain ⟨-, hs⟩ := hrun
    subst hs
    exact (postLoop_sources oracle mp (collected.mergeSort timeLe) seen [] 0 0).2

set_option maxRecDepth 1000000 in
/-- C5 witness: a two-source run; both source names are distinct. -/
theorem c5_witness :
    runMain alwaysOk true 6 2000 [] [(wE1, "s1"), (wE2, "s2")]
      = some (["d48f65e6dd4ca46640646df5860fd3808eccca649b110c528250b12d104f69b7",
               "4ed7287e69b7557364972baec7309155e0d5148381a3a95740d82905e82e8b7c"],
              [(wE1, "s1"), (wE2, "s2")])
    ∧ ([(wE1, "s1"), (wE2, "s2")].map Prod.snd).Nodup := by
  have h : runMain alwaysOk true 6 2000 [] [(wE1, "s1"), (wE2, "s2")]
      = some (["d48f65e6dd4ca46640646df5860fd3808eccca649b110c528250b12d104f69b7",
               "4ed7287e69b7557364972baec7309155e0d5148381a3a95740d82905e82e8b7c"],
              [(wE1, "s1"), (wE2, "s2")]) := by
    rw [runMain_eq_of_sorted alwaysOk true 6 2000 [] [(wE1, "s1"), (wE2, "s2")]
      (by decide) (by decide)]
    decide
  exact ⟨h, c5_diversity alwaysOk 6 2000 [] _ _ _ h⟩

set_option maxRecDepth 1000000 in
/-- C7 (counterexample): with max-items-per-run configured to 0, the cap
check `posted >= MAX_POSTS_PER_RUN` only runs after a send, so one item is
still dispatched — the claim fails for the configured value 0. -/
theorem c7_counterexample :
    (runMain alwaysOk true 0 2000 [] [(cexEntry, "s")]).map (fun r => r.2.length)
      = some 1
  ∧ ¬(1 ≤ 0) := by
  refine ⟨?_, by decide⟩
  rw [runMain_eq_of_sorted alwaysOk true 0 2000 [] [(cexEntry, "s")]
    (by decide) (by decide)]
  decide

/-- C7 (amended): for every configured maximum of at least 1, a run
dispatches at most that many items (the walk breaks once `posted` reaches
the maximum); with maximum 0 the first eligible item is still sent. -/
theorem c7_run_cap (oracle : Nat → Bool) (ops : Bool) (mp limit : Nat)
    (seen : List String) (collected : List (Entry × String))
    (persisted : List String) (sent : List (Entry × String))
    (hmp : 1 ≤ mp)
    (hrun : runMain oracle ops mp limit seen collected = some (persisted, sent)) :
    sent.length ≤ mp := by
  unfold runMain at hrun
  split at hrun
  · exact absurd hrun (by simp)
  · simp only [Option.some.injEq, Prod.mk.injEq] at hrun
    obtain ⟨-, hs⟩ := hrun
    subst hs
    have := postLoop_length oracle ops mp (collected.mergeSort timeLe) seen [] 0 0
      (by omega)
    omega

set_option maxRecDepth 1000000 in
/-- C7 witness: cap 1 with two eligible items — only the first is sent. -/
theorem c7_witness :
    (1 ≤ 1
     ∧ runMain alwaysOk false 1 2000 [] [(wE1, "s1"), (wE2, "s2")]
        = some (["d48f65e6dd4ca46640646df5860fd3808eccca649b110c528250b12d104f69b7"],
                [(wE1, "s1")]))
    ∧ [(wE1, "s1")].length ≤ 1 := by
  have h : runMain alwaysOk false 1 2000 [] [(wE1, "s1"), (wE2, "s2")]
      = some (["d48f65e6dd4ca46640646df5860fd3808eccca649b110c528250b12d104f69b7"],
              [(wE1, "s1")]) := by
    rw [runMain_eq_of_sorted alwaysOk false 1 2000 [] [(wE1, "s1"), (wE2, "s2")]
      (by decide) (by decide)]
    decide
  exact ⟨⟨Nat.le_refl 1, h⟩,
    c7_run_cap alwaysOk false 1 2000 [] [(wE1, "s1"), (wE2, "s2")] _ _ (Nat.le_refl 1) h⟩

set_option maxRecDepth 1000000 in
/-- C6 (counterexample): an entry with empty title, summary and link is
NOT filtered out: its fingerprint is a digest of empty fields, never the
empty string, so the loop's noise guard `if not fp` cannot fire and the
item is dispatched. -/
theorem c6_counterexample :
    emptyEntry.title = "" ∧ rawSummary emptyEntry = "" ∧ emptyEntry.link = ""
  ∧ (runMain alwaysOk true 6 2000 [] [(emptyEntry, "s")]).map (fun r => r.2)
      = some [(emptyEntry, "s")] := by
  refine ⟨rfl, rfl, rfl, ?_⟩
  rw [runMain_eq_of_sorted alwaysOk true 6 2000 [] [(emptyEntry, "s")]
    (by decide) (by decide)]
  decide

/-- C6 (amended): the planning walk never skips an item for emptiness of
its fields: any head item — all-empty, or with a non-empty link and empty
title/summary — whose fingerprint is unseen and whose source is not yet
used is accepted for dispatch. -/
theorem c6_no_emptiness_skip (e : Entry) (s : String)
    (rest : List (Entry × String)) (seenSet used : List String)
    (posted att : Nat) (oracle : Nat → Bool) (ops : Bool) (mp : Nat)
    (hnew : make_fingerprint e s ∉ seenSet)
    (hsrc : ¬(ops = true ∧ s ∈ used))
    (hsend : oracle att = true) :
    ((postLoop oracle ops mp ((e, s) :: rest) seenSet used posted att).1).head?
      = some (e, s) := by
  have hno : ¬(make_fingerprint e s = "" ∨ make_fingerprint e s ∈ seenSet) := by
    rintro (h | h)
    · exact make_fingerprint_ne_empty e s h
    · exact hnew h
  simp only [postLoop, if_neg hno, if_neg hsrc, hsend, if_true]
  split <;> rfl

set_option maxRecDepth 1000000 in
/-- C6 witness: the all-empty entry, fresh state — it is the next
dispatched item. -/
theorem c6_witness :
    (make_fingerprint emptyEntry "s" ∉ ([] : List String)
     ∧ ¬(true = true ∧ "s" ∈ ([] : List String))
     ∧ alwaysOk 0 = true)
    ∧ ((postLoop alwaysOk true 6 [(emptyEntry, "s")] [] [] 0 0).1).head?
        = some (emptyEntry, "s") :=
  ⟨⟨by simp, by simp, rfl⟩,
    c6_no_emptiness_skip emptyEntry "s" [] [] [] 0 0 alwaysOk true 6
      (by simp) (by simp) rfl⟩

set_option maxRecDepth 1000000 in
/-- C8 (counterexample): a rendered summary of 281 characters whose 279th
character is a space: the code right-strips the truncated prefix before
appending the ellipsis, so the result is NOT the first 279 characters
followed by an ellipsis. -/
theorem c8_counterexample :
    280 < (norm_space (strip_html (rawSummary c8Entry))).length
  ∧ short_summary c8Entry 280
      ≠ ⟨(norm_space (strip_html (rawSummary c8Entry))).data.take 279 ++ ['…']⟩ :=
  ⟨by decide, by decide⟩

set_option linter.unusedVariables false in
/-- C8 (amended): with a budget of at least 1 (the hypothesis marks where
the `Nat` model of the Python slice `txt[:max_chars - 1]` is faithful): an
empty rendered summary yields the empty string; a rendered summary within
the budget is returned unchanged; one exceeding the budget is truncated to
budget−1 characters, right-stripped of trailing whitespace, and suffixed
with one ellipsis character. -/
theorem c8_truncation (e : Entry) (b : Nat) (hb : 1 ≤ b) :
    (norm_space (strip_html (rawSummary e)) = "" → short_summary e b = "")
  ∧ ((norm_space (strip_html (rawSummary e))).length ≤ b →
      short_summary e b = norm_space (strip_html (rawSummary e)))
  ∧ (b < (norm_space (strip_html (rawSummary e))).length →
      short_summary e b
        = ⟨rstripL ((norm_space (strip_html (rawSummary e))).data.take (b - 1))
            ++ ['…']⟩) := by
  refine ⟨?_, ?_, ?_⟩
  · intro h
    simp only [short_summary]
    rw [if_pos h]
  · intro h
    simp only [short_summary]
    by_cases hempty : norm_space (strip_html (rawSummary e)) = ""
    · rw [if_pos hempty]
      exact hempty.symm
    · rw [if_neg hempty, if_pos h]
  · intro h
    have hne : norm_space (strip_html (rawSummary e)) ≠ "" := by
      intro hempty
      rw [hempty] at h
      simp [String.length] at h
    simp only [short_summary]
    rw [if_neg hne, if_neg (by omega)]

/-- C8 witness: budget 5, summary `"abc d xyz"` — truncation keeps
`"abc"` (the trailing space of the 4-character prefix is stripped) and
appends the ellipsis. -/
theorem c8_witness :
    (1 ≤ 5)
    ∧ (5 < (norm_space (strip_html (rawSummary c8wEntry))).length →
        short_summary c8wEntry 5
          = ⟨rstripL ((norm_space (strip_html (rawSummary c8wEntry))).data.take 4)
              ++ ['…']⟩) :=
  ⟨by decide, (c8_truncation c8wEntry 5 (by decide)).2.2⟩

/-- C9 (counterexample): a feed with no declared title whose first entry
link host is `sub.www.example.com`: `replace("www.", "")` removes the
inner `www.` as well, producing `sub.example.com` instead of the claimed
`sub.www.example.com` (inner occurrences are NOT preserved). -/
theorem c9_counterexample :
    resolveSourceName "" [c9Entry] = "sub.example.com"
  ∧ "sub.example.com" ≠ "sub.www.example.com" :=
  ⟨by decide, by decide⟩

/-- C9 (amended): when the feed declares no non-empty title, the source
name is the lowercased host of the first entry's link with EVERY
occurrence of `"www."` removed (`str.replace` is global), or the literal
`"Source"` when no host can be derived (in particular when there are no
entries). -/
theorem c9_source_fallback (feedTitle : String) (e : Entry) (rest : List Entry)
    (htitle : norm_space feedTitle = "") :
    (e.link ≠ "" →
      resolveSourceName feedTitle (e :: rest)
        = (if host_from_url e.link = "" then "Source" else host_from_url e.link))
  ∧ (∀ url : String,
      host_from_url url = ⟨removeWwwL ((netloc url).data.map toLowerChar)⟩)
  ∧ (∀ t : List Char, removeWwwL ('w' :: 'w' :: 'w' :: '.' :: t) = removeWwwL t)
  ∧ resolveSourceName feedTitle [] = "Source" := by
  refine ⟨?_, fun url => rfl, fun t => rfl, ?_⟩
  · intro hlink
    simp only [resolveSourceName, feedFallbackLink, nice_source_name]
    rw [htitle, if_neg (by simp), if_pos hlink]
  · simp only [resolveSourceName, feedFallbackLink, nice_source_name]
    rw [htitle, if_neg (by simp)]
    decide

set_option maxRecDepth 1000000 in
/-- C9 witness: an untitled feed with first entry link on
`www.foo.com` — the leading `www.` is removed and the host is used. -/
theorem c9_witness :
    (norm_space "  " = "")
    ∧ ("https://www.Foo.com/x" ≠ "" →
        resolveSourceName "  " [{ link := "https://www.Foo.com/x" }]
          = (if host_from_url "https://www.Foo.com/x" = "" then "Source"
             else host_from_url "https://www.Foo.com/x")) :=
  ⟨by decide,
    (c9_source_fallback "  " { link := "https://www.Foo.com/x" } [] (by decide)).1⟩

/-- C10 witness: the property instantiated at the all-empty entry. -/
theorem c10_witness :
    (make_fingerprint emptyEntry "s").length = 64
  ∧ (make_fingerprint emptyEntry "s").data.all isHexLowerChar = true
  ∧ ∀ seenSet : List String,
      ((make_fingerprint emptyEntry "s" = "" ∨ make_fingerprint emptyEntry "s" ∈ seenSet)
        ↔ make_fingerprint emptyEntry "s" ∈ seenSet) :=
  c10_fingerprint_nonempty_hex emptyEntry "s"

end Bot
